import Mathlib

/-!
# Verification of the `BoardApprovalsPanel` component

A shallow embedding of the approvals panel of openclaw-mission-control
(`src/frontend/src/components/BoardApprovalsPanel.tsx` and its richer
variant). The component fetches approval records for a board, lets a
reviewer approve or reject pending items, and presents the records
partitioned into pending and resolved groups sorted by creation time.

Modelling conventions:
* JavaScript numbers that the claims touch only as opaque scalars are
  modelled as `Int`.
* The payload is a JSON-like object, modelled as an association list from
  keys to a small value type `JValue` distinguishing the cases the code
  branches on (string, number, boolean, null, object, array).
* `new Date(s).getTime()` is platform date parsing; it is modelled by an
  arbitrary parameter `parse : String → Option Int`, where `none` stands
  for `NaN`.
* `Array.prototype.sort` is stable per the ECMAScript specification; it is
  modelled by the stable `List.insertionSort`.
* The asynchronous fetch/PATCH operations are modelled as state
  transformers taking the network outcome as an explicit argument and
  additionally returning the list of externally visible effects performed.
-/

namespace BoardApprovalsPanel

/-- A JSON-like payload value, distinguishing exactly the cases
`payloadValue` branches on (`typeof value`). Numbers are modelled as
integers. -/
inductive JValue
  | jstr (s : String)
  | jnum (n : Int)
  | jbool (b : Bool)
  | jnull
  | jobj
  | jarr
deriving DecidableEq

/-- The `Approval` record type of the component. `payload` and
`rubric_scores` are optional; `status` is a free-form string that the code
compares against "pending", "approved" and "rejected". -/
structure Approval where
  id : String
  action_type : String
  payload : Option (List (String × JValue))
  confidence : Int
  rubric_scores : Option (List (String × Int))
  status : String
  created_at : String
  resolved_at : Option String
deriving DecidableEq

/-- The decision status union type `"approved" | "rejected"`. -/
inductive DecisionStatus
  | approved
  | rejected
deriving DecidableEq

/-- `statusBadgeVariant`: badge category derived from an approval status. -/
def statusBadgeVariant (status : String) : String :=
  if status = "approved" then "success"
  else if status = "rejected" then "danger"
  else "outline"

/-- `confidenceVariant`: badge category derived from a confidence score. -/
def confidenceVariant (confidence : Int) : String :=
  if confidence ≥ 90 then "success"
  else if confidence ≥ 80 then "accent"
  else "warning"

/-- A character matched by the regex class `\w`: ASCII letters, digits and
underscore. -/
def isWordChar (c : Char) : Bool :=
  c.isAlphanum || c = '_'

/-- `part.replace(/\b\w/g, (char) => char.toUpperCase())`: upper-case every
word character that starts a word (its predecessor, tracked by the flag, is
not a word character). -/
def capWordStarts : Bool → List Char → List Char
  | _, [] => []
  | prevWord, c :: rest =>
      (if isWordChar c && !prevWord then c.toUpper else c)
        :: capWordStarts (isWordChar c) rest

/-- `value.split(".")` on the character list: split on `'.'`, keeping empty
segments exactly as JavaScript `String.prototype.split` does. -/
def splitOnDot : List Char → List (List Char)
  | [] => [[]]
  | c :: rest =>
      let r := splitOnDot rest
      if c = '.' then [] :: r
      else
        match r with
        | [] => [[c]]
        | h :: t => (c :: h) :: t

/-- `segments.join(" · ")`. -/
def joinMiddleDot : List (List Char) → List Char
  | [] => []
  | [x] => x
  | x :: xs => x ++ (" · ".data ++ joinMiddleDot xs)

/-- `replace(/_/g, " ")`: every underscore becomes a space. -/
def underscoresToSpaces (cs : List Char) : List Char :=
  cs.map (fun c => if c = '_' then ' ' else c)

/-- `humanizeAction` (rich variant): split the action type on `.`, replace
underscores with spaces, capitalize word starts, join with `" · "`. -/
def humanizeAction (value : String) : String :=
  String.mk (joinMiddleDot
    ((splitOnDot value.data).map
      (fun part => capWordStarts false (underscoresToSpaces part))))

/-- `approval.action_type.replace(/_/g, " ")` — the simple variant used by
the plain frontend file: only underscores are replaced with spaces. -/
def simpleActionLabel (value : String) : String :=
  String.mk (underscoresToSpaces value.data)

/-- `payloadValue`: `null` when the payload is absent or the value under
`key` is neither a string nor a number; otherwise `String(value)`. -/
def payloadValue (payload : Option (List (String × JValue))) (key : String) :
    Option String :=
  match payload with
  | none => none
  | some p =>
      match p.lookup key with
      | some (JValue.jstr s) => some s
      | some (JValue.jnum n) => some (toString n)
      | _ => none

/-- `value.includes(pat)`: substring containment. -/
def includesStr (s pat : String) : Bool :=
  s.data.tails.any (fun t => pat.data.isPrefixOf t)

/-- JavaScript truthiness of a nullable string: `null` and the empty string
are falsy. `truthy o` is `some` exactly when `o` holds a non-empty string. -/
def truthy (o : Option String) : Option String :=
  match o with
  | some s => if s = "" then none else some s
  | none => none

/-- A `rows.push({label, value})` guarded by `if (value)`. -/
def optionalRow (label : String) (value : Option String) :
    List (String × String) :=
  match truthy value with
  | some v => [(label, v)]
  | none => []

/-- The result record of `approvalSummary`. -/
structure ApprovalSummary where
  taskId : Option String
  reason : Option String
  rows : List (String × String)
deriving DecidableEq

/-- `approvalSummary`: look up task id (three spellings), assignee id (two
spellings), reason, title and role in the payload; build the summary rows
in source order. The guard `if (taskId)` etc. is JavaScript truthiness, so
an empty-string value produces no row; the Assignee row is pushed whenever
the action type contains "assign", with `assignedAgentId ?? "Unassigned"`
as its value. -/
def approvalSummary (approval : Approval) : ApprovalSummary :=
  let taskId := payloadValue approval.payload "task_id" <|>
    payloadValue approval.payload "taskId" <|>
    payloadValue approval.payload "taskID"
  let assignedAgentId := payloadValue approval.payload "assigned_agent_id" <|>
    payloadValue approval.payload "assignedAgentId"
  let reason := payloadValue approval.payload "reason"
  let title := payloadValue approval.payload "title"
  let role := payloadValue approval.payload "role"
  let isAssign := includesStr approval.action_type "assign"
  let rows :=
    optionalRow "Task" taskId ++
    (if isAssign then [("Assignee", assignedAgentId.getD "Unassigned")] else []) ++
    optionalRow "Title" title ++
    optionalRow "Role" role
  { taskId := taskId, reason := reason, rows := rows }

/-- The comparator of `sortByTime`: `bTime - aTime`, where a `NaN` operand
(a timestamp that fails to parse) makes the whole comparator value behave
as 0 in the sort's `< 0` / `> 0` tests. -/
def cmpByTime (parse : String → Option Int) (a b : Approval) : Int :=
  match parse a.created_at, parse b.created_at with
  | some aTime, some bTime => bTime - aTime
  | _, _ => 0

/-- The sort order induced by the comparator: `a` may stay before `b` when
the comparator does not demand swapping them. -/
def timeLe (parse : String → Option Int) (a b : Approval) : Prop :=
  cmpByTime parse a b ≤ 0

instance (parse : String → Option Int) : DecidableRel (timeLe parse) :=
  fun a b => by unfold timeLe; exact inferInstance

/-- `sortByTime`: a stable sort of the items by the descending-time
comparator (`[...items].sort(...)` sorts a copy). -/
def sortByTime (parse : String → Option Int) (items : List Approval) :
    List Approval :=
  List.insertionSort (timeLe parse) items

/-- The result of the `sortedApprovals` memo: the two partitions. -/
structure SortedApprovals where
  pending : List Approval
  resolved : List Approval
deriving DecidableEq

/-- `sortedApprovals`: filter the collection into `status === "pending"`
and its complement, and sort each partition by descending creation time. -/
def sortedApprovals (parse : String → Option Int)
    (approvals : List Approval) : SortedApprovals :=
  { pending := sortByTime parse
      (approvals.filter (fun item => item.status == "pending"))
  , resolved := sortByTime parse
      (approvals.filter (fun item => !(item.status == "pending"))) }

/-- The component's internal mutable state: the self-managed approvals
list, loading flag, error message and per-item updating marker. -/
structure PanelState where
  internalApprovals : List Approval
  isLoading : Bool
  error : Option String
  updatingId : Option String
deriving DecidableEq

/-- An externally visible effect performed by an operation. -/
inductive Effect
  | networkGet (boardId : String)
  | networkPatch (boardId approvalId : String) (status : DecisionStatus)
  | externalDecision (approvalId : String) (status : DecisionStatus)
deriving DecidableEq

/-- The outcome of an awaited fetch: a 2xx response with parsed body `ok`,
a non-2xx response (`httpError`, which the code turns into a thrown `Error`
carrying its fixed message), or some other exception `exn` carrying the
thrown error's message when it is an `Error` instance. -/
inductive FetchResult (α : Type)
  | ok (value : α)
  | httpError
  | exn (msg : Option String)
deriving DecidableEq

/-- `loadApprovals` as a state transformer. Guards: external mode and the
signed-in/board-id preconditions short-circuit to a no-op. Otherwise the
loading flag is raised and the error cleared, the GET is issued, and the
final state reflects the outcome: on success the approvals are replaced by
the response body; on a non-2xx response the thrown
`Error("Unable to load approvals.")` is caught and its message stored; on
any other exception the error's own message is stored when present, the
fixed message otherwise. The `finally` clause lowers the loading flag on
every path. -/
def loadApprovals (usingExternal isSignedIn : Bool) (boardId : String)
    (result : FetchResult (List Approval)) (s : PanelState) :
    PanelState × List Effect :=
  if usingExternal then (s, [])
  else if !isSignedIn || boardId == "" then (s, [])
  else
    let s1 : PanelState := { s with isLoading := true, error := none }
    match result with
    | FetchResult.ok data =>
        ({ s1 with internalApprovals := data, isLoading := false },
          [Effect.networkGet boardId])
    | FetchResult.httpError =>
        ({ s1 with error := some "Unable to load approvals.", isLoading := false },
          [Effect.networkGet boardId])
    | FetchResult.exn m =>
        ({ s1 with error := some (m.getD "Unable to load approvals."), isLoading := false },
          [Effect.networkGet boardId])

/-- `handleDecision` as a state transformer. If an external `onDecision`
handler is supplied it is invoked and the function returns at once; in
external-approvals mode or when the signed-in/board-id preconditions fail
it is a no-op. Otherwise the updating marker is set to the target id and
the error cleared, the PATCH is issued, and on success the returned record
replaces every list entry whose id equals the target id; on a non-2xx
response the thrown `Error("Unable to update approval.")` message is
stored, and on any other exception its own message when present. The
`finally` clause clears the updating marker on every path. -/
def handleDecision (hasOnDecision usingExternal isSignedIn : Bool)
    (boardId approvalId : String) (status : DecisionStatus)
    (result : FetchResult Approval) (s : PanelState) :
    PanelState × List Effect :=
  if hasOnDecision then (s, [Effect.externalDecision approvalId status])
  else if usingExternal then (s, [])
  else if !isSignedIn || boardId == "" then (s, [])
  else
    let s1 : PanelState := { s with updatingId := some approvalId, error := none }
    match result with
    | FetchResult.ok updated =>
        ({ s1 with internalApprovals := s1.internalApprovals.map (fun item => if item.id == approvalId then updated else item), updatingId := none },
          [Effect.networkPatch boardId approvalId status])
    | FetchResult.httpError =>
        ({ s1 with error := some "Unable to update approval.", updatingId := none },
          [Effect.networkPatch boardId approvalId status])
    | FetchResult.exn m =>
        ({ s1 with error := some (m.getD "Unable to update approval."), updatingId := none },
          [Effect.networkPatch boardId approvalId status])

/-! ## Helper lemmas -/

theorem truthy_eq_some {o : Option String} {v : String}
    (h : truthy o = some v) : o = some v ∧ v ≠ "" := by
  cases o with
  | none => simp [truthy] at h
  | some s =>
      by_cases hs : s = "" <;> simp [truthy, hs] at h
      subst h
      exact ⟨rfl, hs⟩

theorem count_filter_add_count_filter_not (p : Approval → Bool) (a : Approval) :
    ∀ l : List Approval,
      (l.filter p).count a + (l.filter (fun x => !(p x))).count a = l.count a := by
  intro l
  induction l with
  | nil => simp
  | cons b t ih =>
      by_cases hb : p b <;>
        simp [List.filter_cons, hb, List.count_cons] <;> omega

/-- Sample test: the scenario from the specification's testable properties. -/
def approvalA : Approval :=
  { id := "a", action_type := "task.assign", payload := none, confidence := 95,
    rubric_scores := none, status := "pending",
    created_at := "2024-01-01T00:00:00Z", resolved_at := none }

def approvalB : Approval :=
  { id := "b", action_type := "task.create", payload := none, confidence := 60,
    rubric_scores := none, status := "approved",
    created_at := "2024-01-02T00:00:00Z", resolved_at := none }

/-- A date-parse stand-in used by concrete witnesses: every timestamp
fails to parse. -/
def parseNone : String → Option Int := fun _ => none

/-! ## Claims -/

/-- **C6** (corrected claim, counterexample part). The claim states the
simple variant yields "task assign role" for `action_type =
"task.assign_role"`; in fact `replace(/_/g, " ")` leaves the dot in place,
so the claim as stated is false. -/
theorem humanize_simple_counterexample :
    ¬ (humanizeAction "task.assign_role" = "Task · Assign Role" ∧
       simpleActionLabel "task.assign_role" = "task assign role") := by
  decide

/-- **C6** (amended). The title-cased variant humanizes
"task.assign_role" to "Task · Assign Role"; the simple variant, which only
replaces underscores with spaces, yields "task.assign role" (the dot
separator is preserved). -/
theorem humanize_assign_role :
    humanizeAction "task.assign_role" = "Task · Assign Role" ∧
    simpleActionLabel "task.assign_role" = "task.assign role" := by
  decide

/-- **C9**. When an external decision handler is supplied, `handleDecision`
delegates to it: the state is returned unchanged (approvals, error and
updating marker untouched) and the only effect is the call to the external
handler — no network request is issued. -/
theorem handleDecision_delegates (usingExternal isSignedIn : Bool)
    (boardId approvalId : String) (st : DecisionStatus)
    (result : FetchResult Approval) (s : PanelState) :
    handleDecision true usingExternal isSignedIn boardId approvalId st result s =
      (s, [Effect.externalDecision approvalId st]) := by
  simp [handleDecision]

/-- **C8**. When the session is not signed in or the board id is empty,
both `loadApprovals` and the self-managed `handleDecision` are no-ops:
the state (approvals, loading flag, error, updating marker) is returned
unchanged and no effect — in particular no network request — is
performed. -/
theorem precondition_noop (usingExternal isSignedIn : Bool) (boardId : String)
    (h : isSignedIn = false ∨ boardId = "") :
    (∀ result s, loadApprovals usingExternal isSignedIn boardId result s = (s, [])) ∧
    (∀ approvalId st result s,
      handleDecision false usingExternal isSignedIn boardId approvalId st result s = (s, [])) := by
  constructor
  · intro result s
    rcases h with h | h <;> cases usingExternal <;> simp [loadApprovals, h]
  · intro approvalId st result s
    rcases h with h | h <;> cases usingExternal <;> simp [handleDecision, h]

/-- **C8** witness at a concrete state. -/
theorem precondition_noop_witness :
    ("" : String) = "" ∧
    loadApprovals false true "" (FetchResult.httpError)
        ⟨[approvalA], false, none, none⟩ = (⟨[approvalA], false, none, none⟩, []) ∧
    handleDecision false false true "" "a" DecisionStatus.approved
        (FetchResult.httpError) ⟨[approvalA], false, none, none⟩ =
      (⟨[approvalA], false, none, none⟩, []) :=
  ⟨rfl,
    (precondition_noop false true "" (Or.inr rfl)).1 _ _,
    (precondition_noop false true "" (Or.inr rfl)).2 _ _ _ _⟩

/-- **C5**. When the PATCH returns non-2xx, `handleDecision` stores the
error message "Unable to update approval.", leaves the approvals list —
and hence the target record's status — unchanged, and clears the updating
marker; moreover the updating marker ends up cleared for every outcome. -/
theorem handleDecision_httpError (boardId approvalId : String)
    (st : DecisionStatus) (s : PanelState) (hb : boardId ≠ "") :
    ((handleDecision false false true boardId approvalId st
        FetchResult.httpError s).1.error = some "Unable to update approval." ∧
     (handleDecision false false true boardId approvalId st
        FetchResult.httpError s).1.internalApprovals = s.internalApprovals ∧
     (handleDecision false false true boardId approvalId st
        FetchResult.httpError s).1.updatingId = none) ∧
    ∀ result, (handleDecision false false true boardId approvalId st
        result s).1.updatingId = none := by
  constructor
  · simp [handleDecision, hb]
  · intro result
    cases result <;> simp [handleDecision, hb]

/-- **C5** witness at a concrete input. -/
theorem handleDecision_httpError_witness :
    ("b1" : String) ≠ "" ∧
    (handleDecision false false true "b1" "a" DecisionStatus.rejected
        FetchResult.httpError ⟨[approvalA], false, none, none⟩).1.error =
      some "Unable to update approval." :=
  ⟨by decide,
    ((handleDecision_httpError "b1" "a" DecisionStatus.rejected
      ⟨[approvalA], false, none, none⟩ (by decide)).1).1⟩

/-- **C4**. When the fetch fails (non-2xx response or a thrown exception),
`loadApprovals` leaves the previously loaded approvals unchanged and sets
the error to a non-null string, which is "Unable to load approvals."
unless the thrown failure exposes its own message. -/
theorem loadApprovals_failure (boardId : String)
    (result : FetchResult (List Approval)) (s : PanelState)
    (hb : boardId ≠ "") (hfail : ∀ data, result ≠ FetchResult.ok data) :
    (loadApprovals false true boardId result s).1.internalApprovals =
      s.internalApprovals ∧
    ∃ msg, (loadApprovals false true boardId result s).1.error = some msg ∧
      (msg = "Unable to load approvals." ∨ result = FetchResult.exn (some msg)) := by
  cases result with
  | ok data => exact absurd rfl (hfail data)
  | httpError =>
      refine ⟨by simp [loadApprovals, hb], "Unable to load approvals.", ?_, Or.inl rfl⟩
      simp [loadApprovals, hb]
  | exn m =>
      cases m with
      | none =>
          refine ⟨by simp [loadApprovals, hb], "Unable to load approvals.", ?_, Or.inl rfl⟩
          simp [loadApprovals, hb]
      | some em =>
          refine ⟨by simp [loadApprovals, hb], em, ?_, Or.inr rfl⟩
          simp [loadApprovals, hb]

/-- **C4** witness at a concrete input. -/
theorem loadApprovals_failure_witness :
    ("b1" : String) ≠ "" ∧
    (loadApprovals false true "b1" (FetchResult.exn (some "boom"))
        ⟨[approvalA], false, none, none⟩).1.internalApprovals = [approvalA] :=
  ⟨by decide,
    (loadApprovals_failure "b1" (FetchResult.exn (some "boom"))
      ⟨[approvalA], false, none, none⟩ (by decide) (fun _ h => by cases h)).1⟩

/-- **C3**. On a successful decision, `handleDecision` replaces in place
exactly the entries whose id equals the target id with the server's
returned record: the list length is preserved, and at every position the
entry is unchanged when its id differs from the target and becomes the
returned record when it matches — so nothing is appended, removed or
reordered. -/
theorem handleDecision_success_frame (boardId approvalId : String)
    (st : DecisionStatus) (updated : Approval) (s : PanelState)
    (hb : boardId ≠ "") :
    (handleDecision false false true boardId approvalId st
        (FetchResult.ok updated) s).1.internalApprovals.length =
      s.internalApprovals.length ∧
    ∀ i : Nat, (handleDecision false false true boardId approvalId st
        (FetchResult.ok updated) s).1.internalApprovals.get? i =
      (s.internalApprovals.get? i).map
        (fun item => if item.id = approvalId then updated else item) := by
  constructor
  · simp [handleDecision, hb]
  · intro i
    simp [handleDecision, hb, List.getElem?_map]

/-- **C3** witness at a concrete input: the matching entry is replaced and
the list keeps its length. -/
theorem handleDecision_success_frame_witness :
    ("b1" : String) ≠ "" ∧
    (handleDecision false false true "b1" "a" DecisionStatus.approved
        (FetchResult.ok approvalB) ⟨[approvalA], false, none, none⟩).1.internalApprovals.length = 1 :=
  ⟨by decide,
    (handleDecision_success_frame "b1" "a" DecisionStatus.approved approvalB
      ⟨[approvalA], false, none, none⟩ (by decide)).1⟩

/-- **C1**. The presenter's partition is a strict complement: membership
in `pending` is exactly membership in the collection with status
"pending", membership in `resolved` is exactly membership with any other
status, and the two partitions' multiplicities add up to the
collection's — every record lands in exactly one partition, determined
solely by `status == "pending"`. -/
theorem sortedApprovals_partition (parse : String → Option Int)
    (approvals : List Approval) (a : Approval) :
    (a ∈ (sortedApprovals parse approvals).pending ↔
      a ∈ approvals ∧ a.status = "pending") ∧
    (a ∈ (sortedApprovals parse approvals).resolved ↔
      a ∈ approvals ∧ a.status ≠ "pending") ∧
    (sortedApprovals parse approvals).pending.count a +
      (sortedApprovals parse approvals).resolved.count a = approvals.count a := by
  refine ⟨?_, ?_, ?_⟩
  · show a ∈ List.insertionSort (timeLe parse)
        (approvals.filter (fun item => item.status == "pending")) ↔ _
    rw [(List.perm_insertionSort _ _).mem_iff, List.mem_filter]
    simp
  · show a ∈ List.insertionSort (timeLe parse)
        (approvals.filter (fun item => !(item.status == "pending"))) ↔ _
    rw [(List.perm_insertionSort _ _).mem_iff, List.mem_filter]
    simp
  · show (List.insertionSort (timeLe parse)
        (approvals.filter (fun item => item.status == "pending"))).count a +
      (List.insertionSort (timeLe parse)
        (approvals.filter (fun item => !(item.status == "pending")))).count a =
      approvals.count a
    rw [(List.perm_insertionSort _ _).count_eq,
      (List.perm_insertionSort _ _).count_eq]
    exact count_filter_add_count_filter_not _ a approvals

/-- Orderedness of adjacent pairs that both carry parseable timestamps:
`a` (earlier in the output) is at least as recent as `b`. -/
def descendingAt (parse : String → Option Int) (a b : Approval) : Prop :=
  ∀ aTime bTime, parse a.created_at = some aTime →
    parse b.created_at = some bTime → bTime ≤ aTime

theorem timeLe_descendingAt (parse : String → Option Int) (a b : Approval)
    (h : timeLe parse a b) : descendingAt parse a b := by
  intro aTime bTime ha hb
  unfold timeLe cmpByTime at h
  rw [ha, hb] at h
  simp at h
  omega

theorem not_timeLe_descendingAt (parse : String → Option Int) (a b : Approval)
    (h : ¬ timeLe parse a b) : descendingAt parse b a := by
  intro bTime aTime hb ha
  unfold timeLe cmpByTime at h
  rw [ha, hb] at h
  simp at h
  omega

/-- Inserting with `orderedInsert` preserves adjacency-goodness, for any
goodness relation implied both by the order and by the negated order. -/
theorem chain'_orderedInsert {α : Type} (r : α → α → Prop) [DecidableRel r]
    (G : α → α → Prop) (hr : ∀ a b, r a b → G a b)
    (hnr : ∀ a b, ¬ r a b → G b a) (x : α) (l : List α)
    (hc : l.Chain' G) : (l.orderedInsert r x).Chain' G := by
  induction l with
  | nil => simp [List.orderedInsert]
  | cons b t ih =>
      by_cases h : r x b
      · rw [List.orderedInsert, if_pos h]
        exact List.chain'_cons.mpr ⟨hr x b h, hc⟩
      · rw [List.orderedInsert, if_neg h]
        have ht : t.Chain' G := (List.chain'_cons'.mp hc).2
        refine List.chain'_cons'.mpr ⟨?_, ih ht⟩
        intro y hy
        cases t with
        | nil =>
            rw [List.orderedInsert] at hy
            simp at hy
            subst hy
            exact hnr x b h
        | cons c t' =>
            by_cases h2 : r x c
            · rw [List.orderedInsert, if_pos h2] at hy
              simp at hy
              subst hy
              exact hnr x b h
            · rw [List.orderedInsert, if_neg h2] at hy
              simp at hy
              subst hy
              exact (List.chain'_cons.mp hc).1

/-- Every insertion-sorted list is adjacency-good for such a relation. -/
theorem chain'_insertionSort {α : Type} (r : α → α → Prop) [DecidableRel r]
    (G : α → α → Prop) (hr : ∀ a b, r a b → G a b)
    (hnr : ∀ a b, ¬ r a b → G b a) (l : List α) :
    (List.insertionSort r l).Chain' G := by
  induction l with
  | nil => simp [List.insertionSort]
  | cons b t ih =>
      rw [List.insertionSort]
      exact chain'_orderedInsert r G hr hnr b _ ih

/-- **C2**. Within each partition of the presenter's output, every
adjacent pair (a, b) whose `created_at` timestamps both parse satisfies
`a.created_at ≥ b.created_at`: the sort is descending, most recent
first. -/
theorem sortedApprovals_sorted (parse : String → Option Int)
    (approvals : List Approval) :
    (sortedApprovals parse approvals).pending.Chain' (descendingAt parse) ∧
    (sortedApprovals parse approvals).resolved.Chain' (descendingAt parse) := by
  constructor <;>
    exact chain'_insertionSort (timeLe parse) (descendingAt parse)
      (timeLe_descendingAt parse) (not_timeLe_descendingAt parse) _

/-- **C2** applied at a concrete collection. -/
theorem sortedApprovals_sorted_example :
    (sortedApprovals parseNone [approvalA, approvalB]).pending.Chain'
      (descendingAt parseNone) :=
  (sortedApprovals_sorted parseNone [approvalA, approvalB]).1

/-- **C1** applied at the specification's sample collection. -/
theorem sortedApprovals_partition_witness :
    approvalA ∈ (sortedApprovals parseNone [approvalA, approvalB]).pending ∧
    approvalB ∈ (sortedApprovals parseNone [approvalA, approvalB]).resolved :=
  ⟨((sortedApprovals_partition parseNone [approvalA, approvalB] approvalA).1).mpr
      ⟨by decide, rfl⟩,
   ((sortedApprovals_partition parseNone [approvalA, approvalB] approvalB).2.1).mpr
      ⟨by decide, by decide⟩⟩

/-- The rows of `approvalSummary`, written out as the concatenation of the
four conditionally pushed segments. -/
theorem approvalSummary_rows (a : Approval) :
    (approvalSummary a).rows =
      optionalRow "Task" (payloadValue a.payload "task_id" <|>
        payloadValue a.payload "taskId" <|> payloadValue a.payload "taskID") ++
      (if includesStr a.action_type "assign" then
        [("Assignee", (payloadValue a.payload "assigned_agent_id" <|>
          payloadValue a.payload "assignedAgentId").getD "Unassigned")] else []) ++
      optionalRow "Title" (payloadValue a.payload "title") ++
      optionalRow "Role" (payloadValue a.payload "role") := rfl

theorem mem_optionalRow {lbl v label : String} {o : Option String}
    (h : (lbl, v) ∈ optionalRow label o) : lbl = label ∧ truthy o = some v := by
  unfold optionalRow at h
  cases htr : truthy o with
  | none => rw [htr] at h; simp at h
  | some w =>
      rw [htr] at h
      simp at h
      exact ⟨h.1, congrArg some h.2.symm⟩

/-- An assignment-type approval whose payload is present but holds no
fields: the summary still renders an Assignee row. -/
def exAssignApproval : Approval :=
  { id := "x", action_type := "task.assign", payload := some [],
    confidence := 90, rubric_scores := none, status := "pending",
    created_at := "2024-01-01T00:00:00Z", resolved_at := none }

/-- **C7** (counterexample). The claim that the rendered summary contains
only fields present in the payload is false: for an assignment-type
approval with an empty payload, the summary renders an Assignee row
("Unassigned") backed by no payload entry at all. -/
theorem approvalSummary_counterexample :
    ¬ (∀ row ∈ (approvalSummary exAssignApproval).rows,
        ∃ key v, (exAssignApproval.payload.getD []).lookup key = some v) := by
  intro h
  obtain ⟨key, v, hk⟩ := h ("Assignee", "Unassigned") (by decide)
  simp [exAssignApproval] at hk

/-- **C7** (amended). For assignment-type approvals: the Assignee row is
always rendered with the assignee id looked up under both spellings,
defaulting to "Unassigned" when absent; every other rendered row's value
comes from a payload lookup under one of the accepted spellings; the
free-text reason is the payload's "reason"; and each of task id (first
successful lookup among its three spellings), title and role is rendered
whenever it is present and non-empty. -/
theorem approvalSummary_assign (a : Approval)
    (h : includesStr a.action_type "assign" = true) :
    ("Assignee", (payloadValue a.payload "assigned_agent_id" <|>
        payloadValue a.payload "assignedAgentId").getD "Unassigned") ∈
      (approvalSummary a).rows ∧
    (∀ lbl v, (lbl, v) ∈ (approvalSummary a).rows → lbl ≠ "Assignee" →
      ∃ key, key ∈ (["task_id", "taskId", "taskID", "title", "role"] : List String) ∧
        payloadValue a.payload key = some v) ∧
    (approvalSummary a).reason = payloadValue a.payload "reason" ∧
    (∀ v, (payloadValue a.payload "task_id" <|> payloadValue a.payload "taskId" <|>
        payloadValue a.payload "taskID") = some v → v ≠ "" →
      ("Task", v) ∈ (approvalSummary a).rows) ∧
    (∀ v, payloadValue a.payload "title" = some v → v ≠ "" →
      ("Title", v) ∈ (approvalSummary a).rows) ∧
    (∀ v, payloadValue a.payload "role" = some v → v ≠ "" →
      ("Role", v) ∈ (approvalSummary a).rows) := by
  refine ⟨?_, ?_, rfl, ?_, ?_, ?_⟩
  · rw [approvalSummary_rows, h]
    simp [List.mem_append]
  · intro lbl v hmem hne
    rw [approvalSummary_rows, h] at hmem
    simp only [List.append_assoc, List.mem_append] at hmem
    rcases hmem with htask | hassign | htitle | hrole
    · obtain ⟨hl, htr⟩ := mem_optionalRow htask
      obtain ⟨hchain, _⟩ := truthy_eq_some htr
      rcases (Option.orElse_eq_some _ _ _).mp hchain with h1 | ⟨_, h23⟩
      · exact ⟨"task_id", by simp, h1⟩
      · rcases (Option.orElse_eq_some _ _ _).mp h23 with h2 | ⟨_, h3⟩
        · exact ⟨"taskId", by simp, h2⟩
        · exact ⟨"taskID", by simp, h3⟩
    · simp at hassign
      exact absurd hassign.1 hne
    · obtain ⟨hl, htr⟩ := mem_optionalRow htitle
      exact ⟨"title", by simp, (truthy_eq_some htr).1⟩
    · obtain ⟨hl, htr⟩ := mem_optionalRow hrole
      exact ⟨"role", by simp, (truthy_eq_some htr).1⟩
  · intro v hv hne
    rw [approvalSummary_rows, h, hv]
    simp [optionalRow, truthy, hne]
  · intro v hv hne
    rw [approvalSummary_rows, h, hv]
    simp [optionalRow, truthy, hne]
  · intro v hv hne
    rw [approvalSummary_rows, h, hv]
    simp [optionalRow, truthy, hne]

/-- **C7** witness: the amended theorem applied at the concrete
assignment-type approval with empty payload. -/
theorem approvalSummary_assign_witness :
    includesStr exAssignApproval.action_type "assign" = true ∧
    ("Assignee", "Unassigned") ∈ (approvalSummary exAssignApproval).rows :=
  ⟨by decide, (approvalSummary_assign exAssignApproval (by decide)).1⟩

/-- **C10**. `payloadValue` yields a string exactly when the payload is
present and holds a string or number under the key (the number rendered by
`String(·)`); it yields `null` for an absent payload and for any
non-scalar value — so booleans, `null`, objects, arrays and missing keys
are silently ignored and summary rows only ever derive from scalar payload
values. -/
theorem payloadValue_scalar (payload : Option (List (String × JValue)))
    (key : String) :
    (∀ r, payloadValue payload key = some r ↔
      ∃ p, payload = some p ∧
        ((∃ s, p.lookup key = some (JValue.jstr s) ∧ r = s) ∨
         (∃ n, p.lookup key = some (JValue.jnum n) ∧ r = toString n))) ∧
    payloadValue none key = none ∧
    (∀ p, (∀ s, p.lookup key ≠ some (JValue.jstr s)) →
      (∀ n, p.lookup key ≠ some (JValue.jnum n)) →
      payloadValue (some p) key = none) := by
  refine ⟨?_, rfl, ?_⟩
  · intro r
    cases payload with
    | none => simp [payloadValue]
    | some p =>
        cases hl : p.lookup key with
        | none => simp [payloadValue, hl]
        | some val => cases val <;> simp [payloadValue, hl, eq_comm]
  · intro p hs hn
    cases hl : p.lookup key with
    | none => simp [payloadValue, hl]
    | some val =>
        cases val with
        | jstr s => exact absurd hl (hs s)
        | jnum n => exact absurd hl (hn n)
        | jbool b => simp [payloadValue, hl]
        | jnull => simp [payloadValue, hl]
        | jobj => simp [payloadValue, hl]
        | jarr => simp [payloadValue, hl]

/-- **C10** witness: a boolean under an accepted key is ignored. -/
theorem payloadValue_scalar_witness :
    payloadValue (some [("task_id", JValue.jbool true)]) "task_id" = none :=
  (payloadValue_scalar (some [("task_id", JValue.jbool true)]) "task_id").2.2
    [("task_id", JValue.jbool true)]
    (fun s hcontra => by simp [List.lookup] at hcontra)
    (fun n hcontra => by simp [List.lookup] at hcontra)

end BoardApprovalsPanel
